import Mathlib

/-!
# Verification of the AGS parsing / table-synchronization core

A shallow embedding of the core routines of the AGS VS Code extension
(`src/extension.ts` and `src/table-view-provider.ts`): the field extractor,
the document parser, the position index, the summary aggregator's counting
and depth-range passes, and the table-view engine's line resolution, cell
editing, cursor synchronization and group selection.

Lines of the text buffer are modelled as `List Char`; a document is the
ordered list of its lines.  JavaScript `Map` objects (insertion-ordered,
`set` on an existing key keeps its position) are modelled as association
lists with matching operations.
-/

namespace AGS

/-- A line of text, modelled as its list of characters. -/
abbrev Str := List Char

/-- A text document: the ordered list of its lines (VS Code `lineAt(i).text`). -/
abbrev Doc := List Str

/-- Whitespace as matched by the source's uses of `trim` and `\s` on single
lines (spaces and tabs; line terminators never occur inside a line). -/
def isSpaceJS (c : Char) : Bool := c == ' ' || c == '\t'

/-- JavaScript `String.prototype.trim` on a single line. -/
def trim (l : Str) : Str :=
  ((l.dropWhile isSpaceJS).reverse.dropWhile isSpaceJS).reverse

/-- Case-insensitive match of one line character against one pattern
character, as the regex `i` flag does for ASCII. -/
def charMatchCI (c pat : Char) : Bool := c.toUpper == pat.toUpper

/-- The pattern list is a case-insensitive prefix of the line. -/
def prefixCI : Str → Str → Bool
  | [], _ => true
  | _ :: _, [] => false
  | p :: ps, c :: cs => charMatchCI c p && prefixCI ps cs

/-- `line.match(/^"KW"/i)`: the line starts with a double quote, the keyword
(case-insensitively) and a closing double quote. -/
def isRowType (line : Str) (kw : String) : Bool :=
  prefixCI ('"' :: (kw.data ++ ('"' :: []))) line

/-- `[A-Z0-9_]` under the regex `i` flag. -/
def isWordChar (c : Char) : Bool :=
  (('A' ≤ c && c ≤ 'Z') || ('a' ≤ c && c ≤ 'z') || ('0' ≤ c && c ≤ '9')) || c == '_'

/-- The group-declaration regex `/^"GROUP"\s*,\s*"([A-Z0-9_]+)"/i` from
`parseDocument`; returns the captured group name (case preserved). -/
def parseGroupDecl (l : Str) : Option Str :=
  if prefixCI ('"' :: ("GROUP".data ++ ('"' :: []))) l then
    let r1 := (l.drop 7).dropWhile isSpaceJS
    match r1 with
    | ',' :: r2 =>
      match r2.dropWhile isSpaceJS with
      | '"' :: r4 =>
        let name := r4.takeWhile isWordChar
        if name ≠ [] && (r4.dropWhile isWordChar).head? == some '"' then some name
        else none
      | _ => none
    | _ => none
  else none

/-- State of the scan underlying `extractQuotedFields` (`/"([^"]*?)"/g`):
`none` means outside quotes, `some acc` means inside a quoted field with the
content accumulated in reverse. -/
def eqfAux : Str → Option Str → List Str
  | [], _ => []
  | c :: cs, none => if c = '"' then eqfAux cs (some []) else eqfAux cs none
  | c :: cs, some acc =>
    if c = '"' then acc.reverse :: eqfAux cs none else eqfAux cs (c :: acc)

/-- `extractQuotedFields` from `extension.ts`: the values strictly between
pairs of double quotes, left to right; an unterminated quote yields no
further fields. -/
def extractQuotedFields (line : Str) : List Str := eqfAux line none

/-- One step of the `getColumnAtPosition` loop: toggle the quote flag on a
double quote, count a comma when outside quotes. -/
def gcapStep (s : Nat × Bool) (c : Char) : Nat × Bool :=
  if c = '"' then (s.1, !s.2)
  else if c = ',' ∧ s.2 = false then (s.1 + 1, s.2)
  else s

/-- `getColumnAtPosition` from `extension.ts`: iterate over the characters
before `charPosition` (and before the end of the line). -/
def getColumnAtPosition (line : Str) (charPosition : Nat) : Nat :=
  ((line.take charPosition).foldl gcapStep (0, false)).1

/-- One parsed group (the `ParsedGroup` interface; the declared-but-never-set
optional `unitLine`/`typeLine` fields are omitted). -/
structure ParsedGroup where
  name : Str
  line : Nat
  headings : List Str
  headingLine : Int
  dataCount : Nat
  units : List Str
  types : List Str
  data : List (List Str)
deriving DecidableEq

/-- A fresh group as built at a `"GROUP"` declaration line. -/
def mkGroup (name : Str) (line : Nat) : ParsedGroup :=
  ⟨name, line, [], -1, 0, [], [], []⟩

/-- JavaScript `Map.get`: value at the first (only) entry with this key. -/
def mapGet (m : List (Str × α)) (k : Str) : Option α :=
  (m.find? (fun p => p.1 == k)).map (fun p => p.2)

/-- JavaScript `Map.has`. -/
def mapHas (m : List (Str × α)) (k : Str) : Bool :=
  m.any (fun p => p.1 == k)

/-- JavaScript `Map.set`: replace in place if the key exists (its position is
kept), otherwise append. -/
def mapSet (m : List (Str × α)) (k : Str) (v : α) : List (Str × α) :=
  if mapHas m k then m.map (fun p => if p.1 == k then (k, v) else p)
  else m ++ [(k, v)]

/-- In-place mutation of the group object held in the map (the source mutates
`currentGroup`, which is the object stored under its name). -/
def mapUpdate (m : List (Str × α)) (k : Str) (f : α → α) : List (Str × α) :=
  m.map (fun p => if p.1 == k then (p.1, f p.2) else p)

/-- Parser state: the group map, the name of `currentGroup` (always a key of
the map when set), and the captured format version. -/
structure ParseState where
  groups : List (Str × ParsedGroup)
  current : Option Str
  version : Option Str
deriving DecidableEq

/-- `parseDocument`'s body for one line `i`: the five row-type branches plus
the TRAN format-version extraction. -/
def parseStep (st : ParseState) (i : Nat) (line : Str) : ParseState :=
  let trimmed := trim line
  if trimmed = [] then st
  else
    match parseGroupDecl trimmed with
    | some name =>
      { st with groups := mapSet st.groups name (mkGroup name i), current := some name }
    | none =>
      if isRowType trimmed "HEADING" then
        match st.current with
        | some cn =>
          { st with groups := mapUpdate st.groups cn (fun g =>
              { g with headingLine := Int.ofNat i,
                       headings := (extractQuotedFields trimmed).drop 1 }) }
        | none => st
      else if isRowType trimmed "UNIT" then
        match st.current with
        | some cn =>
          { st with groups := mapUpdate st.groups cn (fun g =>
              { g with units := (extractQuotedFields trimmed).drop 1 }) }
        | none => st
      else if isRowType trimmed "TYPE" then
        match st.current with
        | some cn =>
          { st with groups := mapUpdate st.groups cn (fun g =>
              { g with types := (extractQuotedFields trimmed).drop 1 }) }
        | none => st
      else if isRowType trimmed "DATA" then
        match st.current with
        | some cn =>
          let fields := extractQuotedFields trimmed
          let groups1 := mapUpdate st.groups cn (fun g =>
            { g with data := g.data ++ [fields.drop 1], dataCount := g.dataCount + 1 })
          let version1 :=
            if cn == "TRAN".data then
              match mapGet groups1 cn with
              | some g =>
                match g.headings.findIdx? (fun h => h == "TRAN_AGS".data) with
                | some k =>
                  match fields.get? (k + 1) with
                  | some v => if v ≠ [] then some v else st.version
                  | none => st.version
                | none => st.version
              | none => st.version
            else st.version
          { groups := groups1, current := st.current, version := version1 }
        | none => st
      else st

/-- Process the lines in file order, numbering them from `i`. -/
def parseLines : Doc → Nat → ParseState → ParseState
  | [], _, st => st
  | l :: rest, i, st => parseLines rest (i + 1) (parseStep st i l)

/-- The `ParsedDocument` interface: ordered group map plus optional version. -/
structure ParsedDocument where
  groups : List (Str × ParsedGroup)
  version : Option Str
deriving DecidableEq

/-- `parseDocument` from `extension.ts` (the cache write is outside the model). -/
def parseDocument (doc : Doc) : ParsedDocument :=
  let st := parseLines doc 0 ⟨[], none, none⟩
  ⟨st.groups, st.version⟩

/-- `findGroupForLine` from `extension.ts`: the group whose `line` is the
greatest value ≤ the queried line (first encountered wins ties). -/
def findGroupForLine (groups : List (Str × ParsedGroup)) (lineNumber : Nat) :
    Option ParsedGroup :=
  groups.foldl (fun acc p =>
    if p.2.line ≤ lineNumber then
      match acc with
      | none => some p.2
      | some c => if c.line < p.2.line then some p.2 else acc
    else acc) none

/-- Digit test (`0-9`). -/
def isDigit (c : Char) : Bool := '0' ≤ c && c ≤ '9'

/-- Numeric value of a digit character. -/
def digitVal (c : Char) : Nat := c.toNat - '0'.toNat

/-- An exact decimal number `num / 10 ^ exp`: the value of a depth field as
JavaScript's `parseFloat` reads it.  Comparisons are by value (cross
multiplication), so `min`/`max` behave as `Math.min`/`Math.max`; the
representation is kept unreduced so that every operation computes by kernel
reduction. -/
structure JSNum where
  num : Int
  exp : Nat
deriving DecidableEq

/-- Value comparison of two exact decimals. -/
def JSNum.le (a b : JSNum) : Bool :=
  a.num * (10 : Int) ^ b.exp ≤ b.num * (10 : Int) ^ a.exp

/-- `Math.min` on exact decimals. -/
def JSNum.min (a b : JSNum) : JSNum := if JSNum.le a b then a else b

/-- `Math.max` on exact decimals. -/
def JSNum.max (a b : JSNum) : JSNum := if JSNum.le a b then b else a

/-- The rational value of an exact decimal (used only to state results). -/
def JSNum.toRat (a : JSNum) : ℚ := (a.num : ℚ) / (10 : ℚ) ^ a.exp

/-- JavaScript `parseFloat`, embedded on its plain decimal forms
(optional sign, integer digits, optional fractional digits; trailing
non-numeric text is ignored as in JS; exponents, hex and `Infinity` are not
modelled — none occur in depth fields).  `none` models `NaN`. -/
def jsParseFloat (s : Str) : Option JSNum :=
  let s1 := s.dropWhile isSpaceJS
  let sign : Int := if s1.head? == some '-' then -1 else 1
  let s2 := if s1.head? == some '-' || s1.head? == some '+' then s1.drop 1 else s1
  let intDigits := s2.takeWhile isDigit
  let s3 := s2.drop intDigits.length
  let fracDigits := if s3.head? == some '.' then (s3.drop 1).takeWhile isDigit else []
  if intDigits = [] ∧ fracDigits = [] then none
  else
    let intVal : Nat := intDigits.foldl (fun a c => a * 10 + digitVal c) 0
    let fracVal : Nat := fracDigits.foldl (fun a c => a * 10 + digitVal c) 0
    some ⟨sign * ((intVal * 10 ^ fracDigits.length + fracVal : Nat) : Int), fracDigits.length⟩

/-- `topIndex >= 0 ? parseFloat(row[topIndex]) : NaN`: the parsed depth value
of an optional column in a row (`none` models `NaN`). -/
def depthField (idx : Option Nat) (row : List Str) : Option JSNum :=
  match idx with
  | some k => jsParseFloat (row.getD k [])
  | none => none

/-- `Math.min` folded over an optional running bound, `none` playing
`Infinity` (the fold's initial value). -/
def foldMin (cur : Option JSNum) (v : Option JSNum) : Option JSNum :=
  match v with
  | some x => some (match cur with | some m => JSNum.min m x | none => x)
  | none => cur

/-- `Math.max` folded likewise, `none` playing `-Infinity`. -/
def foldMax (cur : Option JSNum) (v : Option JSNum) : Option JSNum :=
  match v with
  | some x => some (match cur with | some m => JSNum.max m x | none => x)
  | none => cur

/-- The body of `generateSummary`'s GEOL loop for one row: fold the row's
parsed `GEOL_TOP` and `GEOL_BASE` values into the running `{min, max}` range
of its location (the `min === Infinity ? 0` substitutions are unreachable
because `jsParseFloat` never yields an infinity). -/
def updateDepthRow (locaIdIndex : Nat) (topIndex baseIndex : Option Nat)
    (acc : List (Str × JSNum × JSNum)) (row : List Str) :
    List (Str × JSNum × JSNum) :=
  let locaId := row.getD locaIdIndex []
  let top := depthField topIndex row
  let base := depthField baseIndex row
  if locaId ≠ [] then
    let existing := mapGet acc locaId
    let min1 := foldMin (existing.map (fun p => p.1)) top
    let max1 := foldMax (existing.map (fun p => p.2)) top
    let min2 := foldMin min1 base
    let max2 := foldMax max1 base
    if min2.isSome || max2.isSome then
      mapSet acc locaId (min2.getD ⟨0, 0⟩, max2.getD ⟨0, 0⟩)
    else acc
  else acc

/-- `generateSummary`'s `depthRangesByLocation` computation over the GEOL
group (lines 340-376 of `extension.ts`). -/
def computeDepthRanges (g : ParsedGroup) : List (Str × JSNum × JSNum) :=
  let locaIdIndex := g.headings.findIdx? (fun h => h == "LOCA_ID".data)
  let topIndex := g.headings.findIdx? (fun h => h == "GEOL_TOP".data)
  let baseIndex := g.headings.findIdx? (fun h => h == "GEOL_BASE".data)
  match locaIdIndex with
  | some li =>
    if topIndex.isSome || baseIndex.isSome then
      g.data.foldl (updateDepthRow li topIndex baseIndex) []
    else []
  | none => []

/-- One entry of `generateSummary`'s `groupCounts` (the dictionary-derived
`description` is an external read-only service and carries no data of the
claims, so it is omitted). -/
structure GroupCount where
  name : Str
  count : Nat
deriving DecidableEq

/-- The total preorder induced by the comparator `(a, b) => b.count - a.count`
(count descending). -/
def rdesc (a b : GroupCount) : Prop := b.count ≤ a.count

instance : DecidableRel rdesc := fun a b => Nat.decLe b.count a.count

instance : IsTotal GroupCount rdesc := ⟨fun a b => Nat.le_total b.count a.count⟩

instance : IsTrans GroupCount rdesc :=
  ⟨fun _ _ _ h1 h2 => Nat.le_trans h2 h1⟩

/-- The per-group counts in document order (first-occurrence order of the
group map), before sorting. -/
def groupCountsRaw (parsed : ParsedDocument) : List GroupCount :=
  parsed.groups.map (fun p => ⟨p.1, p.2.dataCount⟩)

/-- The parts of the `AGSSummary` interface covered by the claims.  The
location inventory (`locations`, `locationsByType`, `recordsByLocation`) is
outside every claim and omitted; `depthRangesByLocation`, the intermediate
map those fields are joined against, is surfaced as a field. -/
structure AGSSummary where
  totalGroups : Nat
  totalRecords : Nat
  groupCounts : List GroupCount
  depthRangesByLocation : List (Str × JSNum × JSNum)
deriving DecidableEq

/-- `generateSummary` from `extension.ts`: counting pass, the stable
descending sort of `groupCounts` (ECMAScript `Array.prototype.sort` is
stable; with the consistent comparator `b.count - a.count` its output is the
unique stable descending order, which insertion sort under `rdesc`
computes), and the GEOL depth-range pass. -/
def generateSummary (parsed : ParsedDocument) : AGSSummary :=
  let totalRecords := parsed.groups.foldl (fun acc p => acc + p.2.dataCount) 0
  let groupCounts := List.insertionSort rdesc (groupCountsRaw parsed)
  let depthRanges :=
    match mapGet parsed.groups ("GEOL".data) with
    | some g => computeDepthRanges g
    | none => []
  ⟨parsed.groups.length, totalRecords, groupCounts, depthRanges⟩

/-- The per-scan state of `getLineNumber` in `table-view-provider.ts`. -/
structure ScanSt where
  unitLine : Int
  typeLine : Int
  dataLines : List Nat
deriving DecidableEq

/-- The line of a document (VS Code `lineAt`), empty when out of range. -/
def lineAt (doc : Doc) (i : Nat) : Str := doc.getD i []

/-- The scan loop of `getLineNumber`: classify each raw line from the group's
start, stop at the next group-declaration line; the fuel is the remaining
width of the window `group.line + group.dataCount + 10`. -/
def glnLoop (doc : Doc) (gline : Nat) : Nat → Nat → ScanSt → ScanSt
  | 0, _, st => st
  | fuel + 1, i, st =>
    if i < doc.length then
      let line := lineAt doc i
      if isRowType line "UNIT" && decide (st.unitLine < 0) then
        glnLoop doc gline fuel (i + 1) { st with unitLine := Int.ofNat i }
      else if isRowType line "TYPE" && decide (st.typeLine < 0) then
        glnLoop doc gline fuel (i + 1) { st with typeLine := Int.ofNat i }
      else if isRowType line "DATA" then
        glnLoop doc gline fuel (i + 1) { st with dataLines := st.dataLines ++ [i] }
      else if isRowType line "GROUP" && decide (gline < i) then st
      else glnLoop doc gline fuel (i + 1) st
    else st

/-- The completed scan of `getLineNumber` for one group. -/
def scanGroupRows (doc : Doc) (g : ParsedGroup) : ScanSt :=
  glnLoop doc g.line (g.dataCount + 10) g.line ⟨-1, -1, []⟩

/-- The row types a cell-edit message can carry. -/
inductive EditRowType
  | UNIT
  | TYPE
  | DATA
deriving DecidableEq

/-- `getLineNumber` from `table-view-provider.ts`: resolve `(rowType,
rowIndex)` to a physical line, `-1` when unresolvable. -/
def getLineNumber (doc : Doc) (g : ParsedGroup) (rowType : EditRowType)
    (rowIndex : Nat) : Int :=
  let st := scanGroupRows doc g
  match rowType with
  | .UNIT => st.unitLine
  | .TYPE => st.typeLine
  | .DATA =>
    match st.dataLines.get? rowIndex with
    | some n => Int.ofNat n
    | none => -1

/-- The scan of `getCellRange` as a single-pass automaton over the line: the
flag records whether the scan is inside a quoted field (the source's inner
`while` locating the closing quote).  On the opening quote of the target
field the content span is returned — up to the next quote or, when the quote
is unterminated, the end of the line. -/
def crAux : Str → Nat → Nat → Nat → Bool → Option (Nat × Nat)
  | [], _, _, _, _ => none
  | c :: cs, i, fieldIndex, target, true =>
    if c = '"' then crAux cs (i + 1) (fieldIndex + 1) target false
    else crAux cs (i + 1) fieldIndex target true
  | c :: cs, i, fieldIndex, target, false =>
    if c = '"' then
      if fieldIndex = target then
        some (i + 1, i + 1 + (cs.takeWhile (fun d => d != '"')).length)
      else crAux cs (i + 1) fieldIndex target true
    else crAux cs (i + 1) fieldIndex target false

/-- `getCellRange` from `table-view-provider.ts`: the character span of the
content of the `(colIndex + 1)`-th quoted field (field 0 is the row type). -/
def getCellRange (line : Str) (colIndex : Nat) : Option (Nat × Nat) :=
  crAux line 0 0 (colIndex + 1) false

/-- A cell-edit message from the webview. -/
structure CellEditMsg where
  rowType : EditRowType
  rowIndex : Nat
  colIndex : Nat
  oldValue : Str
  newValue : Str

/-- `handleCellEdit` from `table-view-provider.ts`, as a function from the
document to the document after the (possibly absent) workspace edit. -/
def handleCellEdit (doc : Doc) (currentGroup : Option Str) (msg : CellEditMsg) :
    Doc :=
  match currentGroup with
  | none => doc
  | some gname =>
    let parsed := parseDocument doc
    match mapGet parsed.groups gname with
    | none => doc
    | some g =>
      match getLineNumber doc g msg.rowType msg.rowIndex with
      | Int.ofNat n =>
        let line := lineAt doc n
        match getCellRange line msg.colIndex with
        | none => doc
        | some se => doc.set n (line.take se.1 ++ msg.newValue ++ line.drop se.2)
      | Int.negSucc _ => doc

/-- The loop of `findFirstDataLine`: first `"DATA"` line within ten lines of
the group's start. -/
def ffdlLoop (doc : Doc) : Nat → Nat → Int
  | 0, _ => -1
  | fuel + 1, i =>
    if i < doc.length then
      if isRowType (lineAt doc i) "DATA" then Int.ofNat i
      else ffdlLoop doc fuel (i + 1)
    else -1

/-- `findFirstDataLine` from `table-view-provider.ts`. -/
def findFirstDataLine (doc : Doc) (g : ParsedGroup) : Int := ffdlLoop doc 10 g.line

/-- The row kinds a highlight instruction can carry; together with the row
index this is the whole payload (no column). -/
inductive RowKind
  | HEADING
  | UNIT
  | TYPE
  | DATA
deriving DecidableEq

/-- The highlight instruction `syncWithEditor` posts for a cursor line (the
group-switch side effect re-renders but does not alter the message).  The
message carries only a row kind and a row index; `none` when no instruction
is posted. -/
def syncWithEditor (doc : Doc) (cursorLine : Nat) : Option (RowKind × Int) :=
  let parsed := parseDocument doc
  match findGroupForLine parsed.groups cursorLine with
  | none => none
  | some g =>
    let lineText := lineAt doc cursorLine
    if isRowType lineText "HEADING" then some (RowKind.HEADING, 0)
    else if isRowType lineText "UNIT" then some (RowKind.UNIT, 0)
    else if isRowType lineText "TYPE" then some (RowKind.TYPE, 0)
    else if isRowType lineText "DATA" then
      match findFirstDataLine doc g with
      | Int.ofNat f =>
        let rowIndex : Int := (cursorLine : Int) - (f : Int)
        if 0 ≤ rowIndex then some (RowKind.DATA, rowIndex) else none
      | Int.negSucc _ => none
    else none

/-- The name of the first group of the document (`groups.keys().next().value`). -/
def firstGroupName (groups : List (Str × ParsedGroup)) : Option Str :=
  groups.head?.map (fun p => p.1)

/-- `handleSelectGroup` followed by `updateContent`'s group validation: the
requested name overwrites the active group unconditionally, and
`updateContent` replaces a missing (or empty, hence falsy) name by the
document's first group.  The prior selection is never consulted. -/
def handleSelectGroup (doc : Doc) (priorGroup : Option Str) (groupName : Str) :
    Option Str :=
  let parsed := parseDocument doc
  let _ := priorGroup
  if groupName ≠ [] ∧ mapHas parsed.groups groupName = true then some groupName
  else firstGroupName parsed.groups

/-- Modelled from the spec (claim C4): the data-row ordinal obtained by
"counting the data-row lines from the group's first data line up to the
cursor line" — the number of `"DATA"` lines at or after `firstDataLine` and
strictly before `cursorLine`, which is the cursor row's 0-based ordinal among
data rows when the cursor is on a data line. -/
def specDataRowOrdinal (doc : Doc) (firstDataLine cursorLine : Nat) : Nat :=
  (List.range' firstDataLine (cursorLine - firstDataLine)).countP
    (fun i => isRowType (lineAt doc i) "DATA")

/-- Index of the `n`-th (0-based) double-quote character of a line. -/
def nthQuoteIdx : Str → Nat → Option Nat
  | [], _ => none
  | c :: cs, n =>
    if c = '"' then
      match n with
      | 0 => some 0
      | m + 1 => (nthQuoteIdx cs m).map (fun p => p + 1)
    else (nthQuoteIdx cs n).map (fun p => p + 1)

/-! ## Concrete documents used by the claims -/

/-- A one-group document whose single data row is `"DATA","BH1","2.50"`. -/
def c1Doc : Doc :=
  [("\"GROUP\",\"TEST\"").data,
   ("\"HEADING\",\"TEST_ID\",\"TEST_VAL\"").data,
   ("\"DATA\",\"BH1\",\"2.50\"").data]

/-- The same document, for the bounded-rescan claim. -/
def c2Doc : Doc :=
  [("\"GROUP\",\"TEST\"").data,
   ("\"HEADING\",\"TEST_ID\",\"TEST_VAL\"").data,
   ("\"DATA\",\"BH1\",\"2.50\"").data]

/-- The group the parser produces for `c2Doc`. -/
def c2Group : ParsedGroup :=
  ⟨("TEST").data, 0, [("TEST_ID").data, ("TEST_VAL").data], 1, 1, [], [],
   [[("BH1").data, ("2.50").data]]⟩

/-- Two groups, so that the first group differs from a prior selection of the
second. -/
def c3Doc : Doc := [("\"GROUP\",\"AAAA\"").data, ("\"GROUP\",\"BBBB\"").data]

/-- A group with a blank line between its two data rows. -/
def c4Doc : Doc :=
  [("\"GROUP\",\"TEST\"").data, ("\"HEADING\",\"TEST_ID\"").data,
   ("\"DATA\",\"A\"").data, [], ("\"DATA\",\"B\"").data]

/-- A GEOL group with rows `(BH1, 0.00, 1.50)` and `(BH1, 1.50, 3.00)`. -/
def c7Doc : Doc :=
  [("\"GROUP\",\"GEOL\"").data,
   ("\"HEADING\",\"LOCA_ID\",\"GEOL_TOP\",\"GEOL_BASE\"").data,
   ("\"DATA\",\"BH1\",\"0.00\",\"1.50\"").data,
   ("\"DATA\",\"BH1\",\"1.50\",\"3.00\"").data]

/-- A row whose top field is non-numeric and whose base field is `2.5`. -/
def c7wRow : List Str := [("BH1").data, ("x").data, ("2.5").data]

/-- A TRAN group whose last data row carries an empty `TRAN_AGS` value. -/
def c9Doc : Doc :=
  [("\"GROUP\",\"TRAN\"").data, ("\"HEADING\",\"TRAN_AGS\"").data,
   ("\"DATA\",\"4.0.4\"").data, ("\"DATA\",\"\"").data]

/-- A TRAN group with two non-empty versions and a trailing empty one. -/
def c9LastDoc : Doc :=
  [("\"GROUP\",\"TRAN\"").data, ("\"HEADING\",\"TRAN_AGS\"").data,
   ("\"DATA\",\"4.0.4\"").data, ("\"DATA\",\"4.1.1\"").data,
   ("\"DATA\",\"\"").data]

/-- A TRAN group record used as a concrete parser state. -/
def c9wGroup : ParsedGroup :=
  ⟨("TRAN").data, 0, [("TRAN_AGS").data], 1, 0, [], [], []⟩

/-- A concrete parser state inside the TRAN group. -/
def c9wState : ParseState :=
  ⟨[(("TRAN").data, c9wGroup)], some (("TRAN").data), none⟩

/-- A data line carrying the version value `4.0.4`. -/
def c9wLine : Str := ("\"DATA\",\"4.0.4\"").data

/-- The line of the column-determinism example. -/
def c8Line : Str := ("\"DATA\",\"A\",\"B\",\"C\"").data

/-- A line whose second quoted field is opened but never closed. -/
def c10Line : Str := ("\"A\",\"B").data

/-! ## Association-list map lemmas -/

theorem mem_mapSet {α : Type} (m : List (Str × α)) (k : Str) (v : α)
    (p : Str × α) (hp : p ∈ mapSet m k v) : p = (k, v) ∨ p ∈ m := by
  unfold mapSet at hp
  split at hp
  · rcases List.mem_map.mp hp with ⟨q, hq, hfq⟩
    by_cases h : (q.1 == k) = true
    · left; rw [if_pos h] at hfq; exact hfq.symm
    · right; rw [if_neg h] at hfq; exact hfq ▸ hq
  · rcases List.mem_append.mp hp with h | h
    · right; exact h
    · left; simpa using h

theorem mem_mapUpdate {α : Type} (m : List (Str × α)) (k : Str) (f : α → α)
    (p : Str × α) (hp : p ∈ mapUpdate m k f) :
    ∃ q ∈ m, p = q ∨ p = (q.1, f q.2) := by
  unfold mapUpdate at hp
  rcases List.mem_map.mp hp with ⟨q, hq, hfq⟩
  refine ⟨q, hq, ?_⟩
  by_cases h : (q.1 == k) = true
  · right; rw [if_pos h] at hfq; exact hfq.symm
  · left; rw [if_neg h] at hfq; exact hfq.symm

theorem mapGet_cons {α : Type} (r : Str × α) (t : List (Str × α)) (q : Str) :
    mapGet (r :: t) q = if (r.1 == q) = true then some r.2 else mapGet t q := by
  unfold mapGet
  by_cases h : (r.1 == q) = true
  · rw [List.find?_cons_of_pos _ (by simpa using h), if_pos h]
    rfl
  · rw [List.find?_cons_of_neg _ (by simpa using h), if_neg h]

theorem mapSet_cons_ne {α : Type} (r : Str × α) (t : List (Str × α))
    (k : Str) (v : α) (h : (r.1 == k) = false) :
    mapSet (r :: t) k v = r :: mapSet t k v := by
  simp only [mapSet, mapHas, List.any_cons, h, Bool.false_or]
  by_cases h2 : (t.any fun p => p.1 == k) = true
  · rw [if_pos h2, if_pos h2, List.map_cons, if_neg (by simp [h])]
  · rw [if_neg h2, if_neg h2, List.cons_append]

theorem mapGet_map_replace_ne {α : Type} (t : List (Str × α)) (k : Str)
    (v : α) (q : Str) (hq : q ≠ k) :
    mapGet (t.map (fun p => if p.1 == k then (k, v) else p)) q = mapGet t q := by
  have hkq : (k == q) = false := by
    simp only [beq_eq_false_iff_ne, ne_eq]
    exact fun hc => hq hc.symm
  induction t with
  | nil => rfl
  | cons r t ih =>
    rw [List.map_cons]
    by_cases h : (r.1 == k) = true
    · have hr : r.1 = k := by simpa using h
      rw [if_pos h, mapGet_cons, mapGet_cons, hr, if_neg (by simp [hkq]),
        if_neg (by simp [hkq])]
      exact ih
    · rw [if_neg h, mapGet_cons, mapGet_cons]
      by_cases h2 : (r.1 == q) = true
      · rw [if_pos h2, if_pos h2]
      · rw [if_neg h2, if_neg h2]
        exact ih

theorem mapGet_mapSet_self {α : Type} (m : List (Str × α)) (k : Str) (v : α) :
    mapGet (mapSet m k v) k = some v := by
  induction m with
  | nil =>
    show mapGet (if mapHas ([] : List (Str × α)) k then _ else [] ++ [(k, v)]) k
      = some v
    rw [if_neg (by simp [mapHas]), List.nil_append, mapGet_cons,
      if_pos (by simp)]
  | cons r t ih =>
    by_cases h : (r.1 == k) = true
    · have hhas : mapHas (r :: t) k = true := by simp [mapHas, h]
      show mapGet (if mapHas (r :: t) k then _ else _) k = some v
      rw [if_pos hhas, List.map_cons, if_pos h, mapGet_cons, if_pos (by simp)]
    · rw [mapSet_cons_ne r t k v (by simpa using h), mapGet_cons, if_neg h]
      exact ih

theorem mapGet_mapSet_ne {α : Type} (m : List (Str × α)) (k : Str) (v : α)
    (q : Str) (hq : q ≠ k) : mapGet (mapSet m k v) q = mapGet m q := by
  have hkq : (k == q) = false := by
    simp only [beq_eq_false_iff_ne, ne_eq]
    exact fun hc => hq hc.symm
  induction m with
  | nil =>
    show mapGet (if mapHas ([] : List (Str × α)) k then _ else [] ++ [(k, v)]) q
      = mapGet [] q
    rw [if_neg (by simp [mapHas]), List.nil_append, mapGet_cons,
      if_neg (by simp [hkq])]
  | cons r t ih =>
    by_cases h : (r.1 == k) = true
    · have hhas : mapHas (r :: t) k = true := by simp [mapHas, h]
      have hr : r.1 = k := by simpa using h
      show mapGet (if mapHas (r :: t) k then _ else _) q = mapGet (r :: t) q
      rw [if_pos hhas, List.map_cons, if_pos h, mapGet_cons, mapGet_cons, hr,
        if_neg (by simp [hkq]), if_neg (by simp [hkq])]
      exact mapGet_map_replace_ne t k v q hq
    · rw [mapSet_cons_ne r t k v (by simpa using h), mapGet_cons, mapGet_cons]
      by_cases h2 : (r.1 == q) = true
      · rw [if_pos h2, if_pos h2]
      · rw [if_neg h2, if_neg h2]
        exact ih

theorem mapGet_mapUpdate_self {α : Type} (m : List (Str × α)) (k : Str)
    (f : α → α) : mapGet (mapUpdate m k f) k = (mapGet m k).map f := by
  induction m with
  | nil => simp [mapUpdate, mapGet, List.find?]
  | cons r t ih =>
    by_cases h : (r.1 == k) = true
    · simp [mapUpdate, mapGet, List.find?, h]
    · simpa [mapUpdate, mapGet, List.find?, h] using ih

/-! ## Parse invariant: `dataCount` counts the parsed data rows -/

theorem parseStep_dataCount (st : ParseState) (i : Nat) (line : Str)
    (h : ∀ p ∈ st.groups, p.2.dataCount = p.2.data.length) :
    ∀ p ∈ (parseStep st i line).groups, p.2.dataCount = p.2.data.length := by
  intro p hp
  simp only [parseStep] at hp
  repeat' split at hp
  all_goals try dsimp only at hp
  all_goals
    first
      | exact h p hp
      | (rcases mem_mapSet _ _ _ _ hp with h1 | h1
         · subst h1; rfl
         · exact h p h1)
      | (rcases mem_mapUpdate _ _ _ _ hp with ⟨q, hq, h1 | h1⟩
         · exact h1 ▸ h q hq
         · subst h1
           have hq2 := h q hq
           simp [hq2])

theorem parseLines_dataCount (lines : Doc) : ∀ (i : Nat) (st : ParseState),
    (∀ p ∈ st.groups, p.2.dataCount = p.2.data.length) →
    ∀ p ∈ (parseLines lines i st).groups, p.2.dataCount = p.2.data.length := by
  induction lines with
  | nil => intro i st h; exact h
  | cons l rest ih =>
    intro i st h
    exact ih (i + 1) _ (parseStep_dataCount st i l h)

theorem foldl_add_dataCount (gs : List (Str × ParsedGroup)) :
    ∀ a : Nat, gs.foldl (fun acc p => acc + p.2.dataCount) a
      = a + (gs.map (fun p => p.2.dataCount)).sum := by
  induction gs with
  | nil => intro a; simp
  | cons p t ih => intro a; simp [ih]; omega

/-! ## Row-type patterns are mutually exclusive -/

theorem prefixCI_false_of_second (l : Str) (p1 p2 : Char) (ps qs : Str)
    (h : prefixCI ('"' :: p1 :: ps) l = true) (hne : p1.toUpper ≠ p2.toUpper) :
    prefixCI ('"' :: p2 :: qs) l = false := by
  cases l with
  | nil => simp [prefixCI] at h
  | cons c0 l1 =>
    cases l1 with
    | nil => simp [prefixCI] at h
    | cons c1 l2 =>
      simp only [prefixCI, Bool.and_eq_true] at h
      have h1 : c1.toUpper = p1.toUpper := by
        simpa [charMatchCI] using h.2.1
      have h2 : charMatchCI c1 p2 = false := by
        simp only [charMatchCI, h1, beq_eq_false_iff_ne, ne_eq]
        exact hne
      simp [prefixCI, h2]

theorem isRowType_DATA_not_HEADING (l : Str) (h : isRowType l "DATA" = true) :
    isRowType l "HEADING" = false :=
  prefixCI_false_of_second l 'D' 'H' (("ATA\"").data) (("EADING\"").data) h
    (by decide)

theorem isRowType_DATA_not_UNIT (l : Str) (h : isRowType l "DATA" = true) :
    isRowType l "UNIT" = false :=
  prefixCI_false_of_second l 'D' 'U' (("ATA\"").data) (("NIT\"").data) h
    (by decide)

theorem isRowType_DATA_not_TYPE (l : Str) (h : isRowType l "DATA" = true) :
    isRowType l "TYPE" = false :=
  prefixCI_false_of_second l 'D' 'T' (("ATA\"").data) (("YPE\"").data) h
    (by decide)

theorem parseGroupDecl_none_of_DATA (l : Str) (h : isRowType l "DATA" = true) :
    parseGroupDecl l = none := by
  have hfalse : prefixCI ('"' :: 'G' :: 'R' :: 'O' :: 'U' :: 'P' :: '"' :: []) l
      = false :=
    prefixCI_false_of_second l 'D' 'G' (("ATA\"").data) (("ROUP\"").data) h
      (by decide)
  simp [parseGroupDecl, hfalse]

theorem ne_nil_of_isRowType (l : Str) (kw : String)
    (h : isRowType l kw = true) : l ≠ [] := by
  intro he
  subst he
  simp [isRowType, prefixCI] at h

/-! ## Claim theorems -/

theorem filter_orderedInsert_pos (p : GroupCount → Bool) (x : GroupCount)
    (l : List GroupCount) (hx : p x = true)
    (hcut : ∀ y, ¬ rdesc x y → p y = false) :
    (List.orderedInsert rdesc x l).filter p = x :: l.filter p := by
  induction l with
  | nil => simp [List.orderedInsert, hx]
  | cons y t ih =>
    simp only [List.orderedInsert]
    by_cases h : rdesc x y
    · rw [if_pos h]
      simp [List.filter_cons, hx]
    · rw [if_neg h]
      have hy : p y = false := hcut y h
      rw [List.filter_cons, if_neg (by simp [hy]), ih,
        List.filter_cons, if_neg (by simp [hy])]

theorem filter_orderedInsert_neg (p : GroupCount → Bool) (x : GroupCount)
    (l : List GroupCount) (hx : p x = false) :
    (List.orderedInsert rdesc x l).filter p = l.filter p := by
  induction l with
  | nil => simp [List.orderedInsert, hx]
  | cons y t ih =>
    simp only [List.orderedInsert]
    by_cases h : rdesc x y
    · rw [if_pos h]
      simp [List.filter_cons, hx]
    · rw [if_neg h, List.filter_cons, List.filter_cons, ih]

theorem filter_count_insertionSort (c : Nat) (l : List GroupCount) :
    (List.insertionSort rdesc l).filter (fun gc => gc.count == c)
      = l.filter (fun gc => gc.count == c) := by
  induction l with
  | nil => rfl
  | cons a l ih =>
    rw [List.insertionSort]
    by_cases ha : (a.count == c) = true
    · have hc : a.count = c := by simpa using ha
      rw [filter_orderedInsert_pos _ a _ ha ?_, ih, List.filter_cons, if_pos ha]
      intro y hy
      have hlt : a.count < y.count := by
        unfold rdesc at hy
        omega
      simp only [beq_eq_false_iff_ne, ne_eq]
      omega
    · have ha2 : (a.count == c) = false := by
        cases hb : a.count == c with
        | true => exact absurd hb ha
        | false => rfl
      rw [filter_orderedInsert_neg _ a _ ha2, ih, List.filter_cons, if_neg ha]

/-- C5: the Summary's total record count equals the sum of `dataCount` over
all groups in document order, and every parsed group's `dataCount` equals
the number of its parsed data rows. -/
theorem c5_count_invariant (doc : Doc) :
    (generateSummary (parseDocument doc)).totalRecords
      = ((parseDocument doc).groups.map (fun p => p.2.dataCount)).sum
    ∧ ((parseDocument doc).groups.all
        (fun p => p.2.dataCount == p.2.data.length)) = true := by
  constructor
  · simpa [generateSummary] using
      foldl_add_dataCount (parseDocument doc).groups 0
  · rw [List.all_eq_true]
    intro p hp
    have h0 : ∀ q ∈ ([] : List (Str × ParsedGroup)),
        q.2.dataCount = q.2.data.length := by
      intro q hq
      cases hq
    exact beq_iff_eq.mpr (parseLines_dataCount doc 0 ⟨[], none, none⟩ h0 p hp)

/-- C6: the Summary's group-count list is sorted by record count in
descending order, and for every count value the entries carrying that count
appear in the same relative order as in the document-order list
`groupCountsRaw` (whose order is the order groups were first encountered:
`mapSet` keeps an existing key's position), i.e. the sort is stable. -/
theorem c6_group_counts_sorted (doc : Doc) :
    List.Pairwise (fun a b : GroupCount => b.count ≤ a.count)
        (generateSummary (parseDocument doc)).groupCounts
    ∧ ∀ c : Nat,
        (generateSummary (parseDocument doc)).groupCounts.filter
            (fun gc => gc.count == c)
          = (groupCountsRaw (parseDocument doc)).filter
              (fun gc => gc.count == c) := by
  constructor
  · exact List.sorted_insertionSort rdesc (groupCountsRaw (parseDocument doc))
  · intro c
    exact filter_count_insertionSort c (groupCountsRaw (parseDocument doc))

/-- C1: in a group whose single data row is `"DATA","BH1","2.50"`, a
cell-edit request for Cell Address `(DATA, 0, 1)` with new value `9.99`
resolves the field span to exactly the quoted content of the second field
(characters 14-18, excluding the quotes), rewrites the line to
`"DATA","BH1","9.99"` leaving the rest of the document unchanged, and after
re-parsing the group's `recordCount` is still 1. -/
theorem c1_edit_application :
    getCellRange (("\"DATA\",\"BH1\",\"2.50\"").data) 1 = some (14, 18)
    ∧ handleCellEdit c1Doc (some (("TEST").data))
        ⟨.DATA, 0, 1, ("2.50").data, ("9.99").data⟩
        = [("\"GROUP\",\"TEST\"").data,
           ("\"HEADING\",\"TEST_ID\",\"TEST_VAL\"").data,
           ("\"DATA\",\"BH1\",\"9.99\"").data]
    ∧ (mapGet (parseDocument (handleCellEdit c1Doc (some (("TEST").data))
          ⟨.DATA, 0, 1, ("2.50").data, ("9.99").data⟩)).groups
          (("TEST").data)).map (fun g => g.dataCount) = some 1 := by
  decide

/-- C2: a cell-edit request of row kind `DATA` whose `rowIndex` is at least
the number of data-row lines found by the bounded re-scan resolves to no
physical line (`getLineNumber` yields `-1`) and leaves the document
untouched. -/
theorem c2_bounded_rescan (doc : Doc) (gname : Str) (g : ParsedGroup)
    (rowIndex colIndex : Nat) (oldV newV : Str)
    (hg : mapGet (parseDocument doc).groups gname = some g)
    (hlen : (scanGroupRows doc g).dataLines.length ≤ rowIndex) :
    getLineNumber doc g .DATA rowIndex = -1
    ∧ handleCellEdit doc (some gname) ⟨.DATA, rowIndex, colIndex, oldV, newV⟩
        = doc := by
  have hnone : (scanGroupRows doc g).dataLines[rowIndex]? = none := by
    rw [List.getElem?_eq_none_iff]
    exact hlen
  have h1 : getLineNumber doc g .DATA rowIndex = -1 := by
    simp [getLineNumber, hnone]
  refine ⟨h1, ?_⟩
  simp only [handleCellEdit, hg, h1]
  rfl

/-- Witness for C2 at `c2Doc`: row index 5 exceeds the single scanned data
line. -/
theorem c2_bounded_rescan_witness :
    mapGet (parseDocument c2Doc).groups (("TEST").data) = some c2Group
    ∧ (scanGroupRows c2Doc c2Group).dataLines.length ≤ 5
    ∧ getLineNumber c2Doc c2Group .DATA 5 = -1
    ∧ handleCellEdit c2Doc (some (("TEST").data)) ⟨.DATA, 5, 0, [], ("X").data⟩
        = c2Doc :=
  ⟨by decide, by decide,
   c2_bounded_rescan c2Doc (("TEST").data) c2Group 5 0 [] (("X").data)
     (by decide) (by decide)⟩

/-- C7: for the GEOL group with rows `(BH1, 0.00, 1.50)` and
`(BH1, 1.50, 3.00)` the computed depth range of `BH1` is `{min 0, max 3}`;
and in general a row whose top (resp. base) value is non-numeric or missing
updates the running range using only the bound it can supply — base alone
folds `b` into both bounds, top alone folds `t` into both bounds, and a row
with neither numeric value leaves every entry of the range map unchanged. -/
theorem c7_depth_aggregation :
    (mapGet (generateSummary (parseDocument c7Doc)).depthRangesByLocation
        (("BH1").data)).map (fun p => (p.1.toRat, p.2.toRat))
      = some ((0 : ℚ), (3 : ℚ))
    ∧ (∀ (li : Nat) (ti bi : Option Nat) (acc : List (Str × JSNum × JSNum))
        (row : List Str) (b : JSNum),
        row.getD li [] ≠ [] →
        depthField ti row = none →
        depthField bi row = some b →
        mapGet (updateDepthRow li ti bi acc row) (row.getD li [])
            = some (match mapGet acc (row.getD li []) with
                    | some mM => (JSNum.min mM.1 b, JSNum.max mM.2 b)
                    | none => (b, b))
          ∧ ∀ q, q ≠ row.getD li [] →
              mapGet (updateDepthRow li ti bi acc row) q = mapGet acc q)
    ∧ (∀ (li : Nat) (ti bi : Option Nat) (acc : List (Str × JSNum × JSNum))
        (row : List Str) (t : JSNum),
        row.getD li [] ≠ [] →
        depthField ti row = some t →
        depthField bi row = none →
        mapGet (updateDepthRow li ti bi acc row) (row.getD li [])
            = some (match mapGet acc (row.getD li []) with
                    | some mM => (JSNum.min mM.1 t, JSNum.max mM.2 t)
                    | none => (t, t))
          ∧ ∀ q, q ≠ row.getD li [] →
              mapGet (updateDepthRow li ti bi acc row) q = mapGet acc q)
    ∧ (∀ (li : Nat) (ti bi : Option Nat) (acc : List (Str × JSNum × JSNum))
        (row : List Str),
        depthField ti row = none →
        depthField bi row = none →
        ∀ q, mapGet (updateDepthRow li ti bi acc row) q = mapGet acc q) := by
  refine ⟨?_, ?_, ?_, ?_⟩
  · have h : mapGet (generateSummary (parseDocument c7Doc)).depthRangesByLocation
        (("BH1").data) = some (⟨0, 2⟩, ⟨300, 2⟩) := by decide
    rw [h]
    norm_num [JSNum.toRat]
  · intro li ti bi acc row b hid htop hbase
    constructor
    · simp only [updateDepthRow, htop, hbase, foldMin, foldMax, if_pos hid]
      cases hex : mapGet acc (row.getD li []) with
      | none =>
        try simp only [Option.map_none', Option.map_some', Option.isSome_none, Option.isSome_some, Bool.true_or, Bool.false_or]
        rw [if_pos trivial, mapGet_mapSet_self]
        rfl
      | some mM =>
        try simp only [Option.map_none', Option.map_some', Option.isSome_none, Option.isSome_some, Bool.true_or, Bool.false_or]
        rw [if_pos trivial, mapGet_mapSet_self]
        rfl
    · intro q hq
      simp only [updateDepthRow, htop, hbase, foldMin, foldMax, if_pos hid]
      cases hex : mapGet acc (row.getD li []) with
      | none =>
        try simp only [Option.map_none', Option.map_some', Option.isSome_none, Option.isSome_some, Bool.true_or, Bool.false_or]
        rw [if_pos trivial]
        exact mapGet_mapSet_ne _ _ _ _ hq
      | some mM =>
        try simp only [Option.map_none', Option.map_some', Option.isSome_none, Option.isSome_some, Bool.true_or, Bool.false_or]
        rw [if_pos trivial]
        exact mapGet_mapSet_ne _ _ _ _ hq
  · intro li ti bi acc row t hid htop hbase
    constructor
    · simp only [updateDepthRow, htop, hbase, foldMin, foldMax, if_pos hid]
      cases hex : mapGet acc (row.getD li []) with
      | none =>
        try simp only [Option.map_none', Option.map_some', Option.isSome_none, Option.isSome_some, Bool.true_or, Bool.false_or]
        rw [if_pos trivial, mapGet_mapSet_self]
        rfl
      | some mM =>
        try simp only [Option.map_none', Option.map_some', Option.isSome_none, Option.isSome_some, Bool.true_or, Bool.false_or]
        rw [if_pos trivial, mapGet_mapSet_self]
        rfl
    · intro q hq
      simp only [updateDepthRow, htop, hbase, foldMin, foldMax, if_pos hid]
      cases hex : mapGet acc (row.getD li []) with
      | none =>
        try simp only [Option.map_none', Option.map_some', Option.isSome_none, Option.isSome_some, Bool.true_or, Bool.false_or]
        rw [if_pos trivial]
        exact mapGet_mapSet_ne _ _ _ _ hq
      | some mM =>
        try simp only [Option.map_none', Option.map_some', Option.isSome_none, Option.isSome_some, Bool.true_or, Bool.false_or]
        rw [if_pos trivial]
        exact mapGet_mapSet_ne _ _ _ _ hq
  · intro li ti bi acc row htop hbase q
    simp only [updateDepthRow, htop, hbase, foldMin, foldMax]
    by_cases hid : row.getD li [] ≠ []
    · rw [if_pos hid]
      cases hex : mapGet acc (row.getD li []) with
      | none => simp
      | some mM =>
        try simp only [Option.map_none', Option.map_some', Option.isSome_none, Option.isSome_some, Bool.true_or, Bool.false_or]
        rw [if_pos trivial]
        by_cases hq : q = row.getD li []
        · subst hq
          rw [mapGet_mapSet_self, hex]
          simp
        · rw [mapGet_mapSet_ne _ _ _ _ hq]
    · rw [if_neg hid]

/-- Witness for C7's general part: a row `(BH1, x, 2.5)` whose top value is
non-numeric contributes only its base value `2.5` to both bounds. -/
theorem c7_depth_aggregation_witness :
    (("BH1").data ≠ ([] : Str))
    ∧ depthField (some 1) c7wRow = none
    ∧ depthField (some 2) c7wRow = some ⟨25, 1⟩
    ∧ mapGet (updateDepthRow 0 (some 1) (some 2) [] c7wRow) (c7wRow.getD 0 [])
        = some (⟨25, 1⟩, ⟨25, 1⟩) :=
  ⟨by decide, by decide, by decide, by
    have h := (c7_depth_aggregation.2.1 0 (some 1) (some 2) [] c7wRow ⟨25, 1⟩
      (by decide) (by decide) (by decide)).1
    simpa using h⟩

/-- C3 counterexample: with groups `AAAA` then `BBBB` and active group
`BBBB`, selecting the absent group `CCCC` makes the active group `AAAA`
(the document's first group), not the prior `BBBB` — so the request is not a
no-op that retains the prior selection. -/
theorem c3_counterexample :
    handleSelectGroup c3Doc (some (("BBBB").data)) (("CCCC").data)
        = some (("AAAA").data)
    ∧ some (("AAAA").data) ≠ some (("BBBB").data) := by
  decide

/-- C3 amended: selecting a group that is not present in the parsed document
(or an empty name) resets the active group to the document's first group
(`none` when the document has no groups); the prior selection is not
consulted. -/
theorem c3_select_missing_group (doc : Doc) (prior : Option Str) (groupName : Str)
    (h : groupName = [] ∨ mapHas (parseDocument doc).groups groupName = false) :
    handleSelectGroup doc prior groupName
      = firstGroupName (parseDocument doc).groups := by
  unfold handleSelectGroup
  rcases h with h | h
  · simp [h]
  · simp [h]

/-- Witness for C3 at `c3Doc`, requesting the absent group `XXXX`. -/
theorem c3_select_missing_group_witness :
    (("XXXX").data = ([] : Str)
      ∨ mapHas (parseDocument c3Doc).groups (("XXXX").data) = false)
    ∧ handleSelectGroup c3Doc (some (("BBBB").data)) (("XXXX").data)
        = firstGroupName (parseDocument c3Doc).groups :=
  ⟨by decide,
   c3_select_missing_group c3Doc (some (("BBBB").data)) (("XXXX").data)
     (by decide)⟩

/-- Peeling the first index off a `countP` over `List.range`. -/
theorem countP_range_succ (F : Nat → Bool) (n : Nat) :
    (List.range (n + 1)).countP F
      = (if F 0 then 1 else 0) + (List.range n).countP (fun i => F (i + 1)) := by
  rw [List.range_succ_eq_map, List.countP_cons, List.countP_map]
  simp only [Function.comp_def, Nat.succ_eq_add_one]
  exact Nat.add_comm _ _

/-- The loop of `getColumnAtPosition`, started at any column count and quote
flag, counts exactly the positions holding a comma at even quote parity
(parity measured from the start of the scanned text, offset by the starting
flag). -/
theorem gcap_foldl (l : Str) : ∀ (col : Nat) (b : Bool),
    (l.foldl gcapStep (col, b)).1
      = col + (List.range l.length).countP
          (fun i => (l[i]? == some ',')
            && (((l.take i).count '"' + (if b then 1 else 0)) % 2 == 0)) := by
  induction l with
  | nil =>
    intro col b
    simp
  | cons c cs ih =>
    intro col b
    rw [List.foldl_cons, List.length_cons, countP_range_succ]
    by_cases hc : c = '"'
    · subst hc
      have hstep : gcapStep (col, b) '"' = (col, !b) := by simp [gcapStep]
      rw [hstep, ih col (!b)]
      cases b with
      | false => simp [List.take_succ_cons, List.count_cons]
      | true =>
        simp [List.take_succ_cons, List.count_cons]
        refine List.countP_congr fun a ha => ?_
        have h2 : (List.count '"' (List.take a cs) + 1 + 1) % 2
            = List.count '"' (List.take a cs) % 2 := by omega
        rw [h2]
    · by_cases hcm : c = ','
      · subst hcm
        cases b with
        | false =>
          have hstep : gcapStep (col, false) ',' = (col + 1, false) := by
            simp [gcapStep, hc]
          rw [hstep, ih (col + 1) false]
          simp [List.take_succ_cons, List.count_cons, hc]
          omega
        | true =>
          have hstep : gcapStep (col, true) ',' = (col, true) := by
            simp [gcapStep, hc]
          rw [hstep, ih col true]
          simp [List.take_succ_cons, List.count_cons, hc]
      · have hstep : gcapStep (col, b) c = (col, b) := by
          simp [gcapStep, hc, hcm]
        rw [hstep, ih col b]
        cases b <;>
          simp [List.take_succ_cons, List.count_cons, hc, hcm]

/-- C8: `getColumnAtPosition` returns, for every line and offset, the number
of comma characters at positions before `min offset length` whose preceding
quote count is even (quote state tracked by parity); in particular for the
line `"DATA","A","B","C"` it returns column 2 at every offset inside the
third quoted field. -/
theorem c8_column_determinism :
    (∀ (l : Str) (charPosition : Nat),
      getColumnAtPosition l charPosition
        = (List.range (min charPosition l.length)).countP
            (fun i => (l[i]? == some ',')
              && (((l.take i).count '"') % 2 == 0)))
    ∧ (∀ c : Nat, 12 ≤ c → c ≤ 13 → getColumnAtPosition c8Line c = 2) := by
  constructor
  · intro l cp
    rw [getColumnAtPosition, gcap_foldl, List.length_take, Nat.zero_add]
    refine List.countP_congr fun i hi => ?_
    have hi2 : i < min cp l.length := List.mem_range.mp hi
    have h1 : (l.take cp)[i]? = l[i]? :=
      List.getElem?_take_of_lt (lt_of_lt_of_le hi2 (min_le_left _ _))
    have h2 : (l.take cp).take i = l.take i := by
      rw [List.take_take]
      congr 1
      omega
    rw [h1, h2]
    simp
  · intro c h1 h2
    interval_cases c <;> decide


/-- Witness for C8 at offset 12, inside the third quoted field of
`"DATA","A","B","C"`. -/
theorem c8_column_determinism_witness :
    (12 ≤ 12 ∧ (12 : Nat) ≤ 13) ∧ getColumnAtPosition c8Line 12 = 2 :=
  ⟨⟨le_refl 12, by decide⟩,
   c8_column_determinism.2 12 (le_refl 12) (by decide)⟩

/-- C4 counterexample: in `c4Doc` the group's first data line is line 2 and
the cursor is on the data line 4, with a blank line between them.  Counting
data-row lines from the first data line up to the cursor gives ordinal 1,
but the emitted highlight instruction carries row index 2 — the blank line
does contribute, so the ordinal is not computed by counting data rows. -/
theorem c4_counterexample :
    ffdlLoop c4Doc 10 0 = Int.ofNat 2
    ∧ syncWithEditor c4Doc 4 = some (RowKind.DATA, 2)
    ∧ specDataRowOrdinal c4Doc 2 4 = 1
    ∧ (2 : Int) ≠ (1 : Int) := by
  decide

/-- C4 amended: for a cursor on a line matching `^"DATA"`, the highlight
instruction carries only a row kind and a row index (the payload type), and
the row index is the arithmetic difference `cursorLine - firstDataLine`
(intervening non-data lines therefore shift it); no instruction is emitted
when no group owns the line, when no `"DATA"` line exists in the ten-line
window, or when the difference would be negative. -/
theorem c4_sync_highlight (doc : Doc) (cursor : Nat)
    (hD : isRowType (lineAt doc cursor) "DATA" = true) :
    syncWithEditor doc cursor
      = (findGroupForLine (parseDocument doc).groups cursor).bind (fun g =>
          match findFirstDataLine doc g with
          | Int.ofNat f =>
            if (f : Int) ≤ (cursor : Int) then
              some (RowKind.DATA, (cursor : Int) - (f : Int))
            else none
          | Int.negSucc _ => none) := by
  have h1 := isRowType_DATA_not_HEADING _ hD
  have h2 := isRowType_DATA_not_UNIT _ hD
  have h3 := isRowType_DATA_not_TYPE _ hD
  simp only [syncWithEditor]
  cases hg : findGroupForLine (parseDocument doc).groups cursor with
  | none => rfl
  | some g =>
    simp only [Option.some_bind, h1, h2, h3, hD, if_true, if_false,
      Bool.false_eq_true, reduceIte]
    cases hf : findFirstDataLine doc g with
    | ofNat f =>
      dsimp only
      by_cases hle : (f : Int) ≤ (cursor : Int)
      · rw [if_pos (Int.sub_nonneg.mpr hle), if_pos hle]
      · rw [if_neg (fun hc => hle (Int.sub_nonneg.mp hc)), if_neg hle]
    | negSucc n => rfl

/-- Witness for C4's amended statement at `c4Doc`, cursor line 4. -/
theorem c4_sync_highlight_witness :
    isRowType (lineAt c4Doc 4) "DATA" = true
    ∧ syncWithEditor c4Doc 4
        = (findGroupForLine (parseDocument c4Doc).groups 4).bind (fun g =>
            match findFirstDataLine c4Doc g with
            | Int.ofNat f =>
              if (f : Int) ≤ ((4 : Nat) : Int) then
                some (RowKind.DATA, ((4 : Nat) : Int) - (f : Int))
              else none
            | Int.negSucc _ => none) :=
  ⟨by decide, c4_sync_highlight c4Doc 4 (by decide)⟩

/-- C9 counterexample: in `c9Doc` the last TRAN data row's field aligned with
`TRAN_AGS` is the empty string, yet the parsed `version` is `4.0.4` from the
earlier row — the value of the last occurrence does not win when it is
empty, because the capture is guarded by JavaScript truthiness. -/
theorem c9_counterexample :
    (parseDocument c9Doc).version = some (("4.0.4").data)
    ∧ (extractQuotedFields (trim (lineAt c9Doc 3))).get? 1 = some []
    ∧ some (("4.0.4").data) ≠ some (([] : Str)) := by
  decide

/-- C9 amended: inside the TRAN group a data row updates `formatVersion`
only when the field aligned with `TRAN_AGS` exists and is non-empty, in
which case it overwrites the previous value (so the last non-empty
occurrence wins, as the concrete first conjunct shows); rows with an empty
or missing aligned field leave `formatVersion` unchanged. -/
theorem c9_version_capture :
    (parseDocument c9LastDoc).version = some (("4.1.1").data)
    ∧ ∀ (st : ParseState) (i : Nat) (line : Str) (g : ParsedGroup),
        st.current = some (("TRAN").data) →
        mapGet st.groups (("TRAN").data) = some g →
        isRowType (trim line) "DATA" = true →
        (parseStep st i line).version =
          match g.headings.findIdx? (fun h => h == ("TRAN_AGS").data) with
          | some k =>
            match (extractQuotedFields (trim line)).get? (k + 1) with
            | some v => if v ≠ [] then some v else st.version
            | none => st.version
          | none => st.version := by
  constructor
  · decide
  · intro st i line g hcur hg hD
    have hne : trim line ≠ [] := ne_nil_of_isRowType _ _ hD
    have hgd : parseGroupDecl (trim line) = none := parseGroupDecl_none_of_DATA _ hD
    have h1 := isRowType_DATA_not_HEADING _ hD
    have h2 := isRowType_DATA_not_UNIT _ hD
    have h3 := isRowType_DATA_not_TYPE _ hD
    simp only [parseStep, if_neg hne, hgd, h1, h2, h3, hD, hcur, if_true,
      if_false, Bool.false_eq_true, beq_self_eq_true, if_pos]
    rw [mapGet_mapUpdate_self, hg]
    rfl

/-- Witness for C9's amended statement: processing the data line
`"DATA","4.0.4"` in a TRAN state with headings `[TRAN_AGS]` captures
`4.0.4`. -/
theorem c9_version_capture_witness :
    (parseStep c9wState 2 c9wLine).version = some (("4.0.4").data) := by
  have h := c9_version_capture.2 c9wState 2 c9wLine c9wGroup (by decide)
    (by decide) (by decide)
  rw [h]
  decide

/-- A run with no double quote is taken whole by the content scan. -/
theorem takeWhile_ne_quote_of_count_zero (cs : Str) (h : cs.count '"' = 0) :
    cs.takeWhile (fun d => d != '"') = cs := by
  induction cs with
  | nil => rfl
  | cons c t ih =>
    rw [List.count_cons] at h
    by_cases hc : c = '"'
    · subst hc
      simp at h
    · have hcb : (c != '"') = true := by simp [hc]
      rw [List.takeWhile_cons, hcb, if_pos rfl, ih (by omega)]

/-- The extractor emits one field per quote pair: from outside quotes the
number of fields is half the number of quotes (rounded down); from inside a
field it is half of one more. -/
theorem eqfAux_length (cs : Str) :
    (eqfAux cs none).length = cs.count '"' / 2
    ∧ ∀ acc, (eqfAux cs (some acc)).length = (cs.count '"' + 1) / 2 := by
  induction cs with
  | nil => simp [eqfAux]
  | cons c t ih =>
    rw [List.count_cons]
    by_cases hc : c = '"'
    · subst hc
      constructor
      · rw [show eqfAux ('"' :: t) none = eqfAux t (some []) from by simp [eqfAux]]
        rw [ih.2 []]
        simp
      · intro acc
        rw [show eqfAux ('"' :: t) (some acc) = acc.reverse :: eqfAux t none from by
          simp [eqfAux]]
        rw [List.length_cons, ih.1]
        simp
        omega
    · constructor
      · rw [show eqfAux (c :: t) none = eqfAux t none from by simp [eqfAux, hc]]
        rw [ih.1]
        simp [hc]
      · intro acc
        rw [show eqfAux (c :: t) (some acc) = eqfAux t (some (c :: acc)) from by
          simp [eqfAux, hc]]
        rw [ih.2 (c :: acc)]
        simp [hc]

/-- The `getCellRange` scan on a suffix holding exactly one quote more than
the pairs still to skip: from outside quotes with `2*(target-fieldIndex)+1`
quotes left, and from inside with `2*(target-fieldIndex)`, the scan returns
the span from just after the last quote to the end. -/
theorem crAux_spec (cs : Str) : ∀ (i f t : Nat),
    (f ≤ t → cs.count '"' = 2 * (t - f) + 1 →
      ∃ p, nthQuoteIdx cs (2 * (t - f)) = some p
        ∧ crAux cs i f t false = some (i + p + 1, i + cs.length))
    ∧ (f < t → cs.count '"' = 2 * (t - f) →
      ∃ p, nthQuoteIdx cs (2 * (t - f) - 1) = some p
        ∧ crAux cs i f t true = some (i + p + 1, i + cs.length)) := by
  induction cs with
  | nil =>
    intro i f t
    constructor
    · intro h1 h2
      simp at h2
    · intro h1 h2
      rw [List.count_nil] at h2
      omega
  | cons c cs ih =>
    intro i f t
    rw [List.count_cons]
    constructor
    · intro hft hcount
      by_cases hc : c = '"'
      · subst hc
        simp only [beq_self_eq_true, if_pos, if_true] at hcount ⊢
        by_cases hfeq : f = t
        · subst hfeq
          have hzero : cs.count '"' = 0 := by
            simp at hcount
            omega
          refine ⟨0, ?_, ?_⟩
          · have : 2 * (f - f) = 0 := by omega
            rw [this]
            rfl
          · rw [show crAux ('"' :: cs) i f f false
                = some (i + 1, i + 1 + (cs.takeWhile (fun d => d != '"')).length)
                from by simp [crAux]]
            rw [takeWhile_ne_quote_of_count_zero cs hzero]
            simp
            omega
        · have hflt : f < t := lt_of_le_of_ne hft hfeq
          have hcount2 : cs.count '"' = 2 * (t - f) := by
            simp at hcount
            omega
          obtain ⟨p, hp, hres⟩ := (ih (i + 1) f t).2 hflt hcount2
          refine ⟨p + 1, ?_, ?_⟩
          · have hsplit : 2 * (t - f) = (2 * (t - f) - 1) + 1 := by omega
            rw [hsplit]
            rw [show nthQuoteIdx ('"' :: cs) ((2 * (t - f) - 1) + 1)
                = (nthQuoteIdx cs (2 * (t - f) - 1)).map (fun p => p + 1)
                from by simp [nthQuoteIdx]]
            rw [hp]
            rfl
          · rw [show crAux ('"' :: cs) i f t false = crAux cs (i + 1) f t true
                from by simp [crAux, hfeq]]
            rw [hres]
            simp
            constructor
            · omega
            · omega
      · have hcount2 : cs.count '"' = 2 * (t - f) + 1 := by
          simp [hc] at hcount
          omega
        obtain ⟨p, hp, hres⟩ := (ih (i + 1) f t).1 hft hcount2
        refine ⟨p + 1, ?_, ?_⟩
        · rw [show nthQuoteIdx (c :: cs) (2 * (t - f))
              = (nthQuoteIdx cs (2 * (t - f))).map (fun p => p + 1)
              from by simp [nthQuoteIdx, hc]]
          rw [hp]
          rfl
        · rw [show crAux (c :: cs) i f t false = crAux cs (i + 1) f t false
              from by simp [crAux, hc]]
          rw [hres]
          simp
          constructor
          · omega
          · omega
    · intro hft hcount
      by_cases hc : c = '"'
      · subst hc
        have hcount2 : cs.count '"' = 2 * (t - (f + 1)) + 1 := by
          simp at hcount
          omega
        have hle : f + 1 ≤ t := hft
        obtain ⟨p, hp, hres⟩ := (ih (i + 1) (f + 1) t).1 hle hcount2
        refine ⟨p + 1, ?_, ?_⟩
        · have hsplit : 2 * (t - f) - 1 = (2 * (t - (f + 1))) + 1 := by omega
          rw [hsplit]
          rw [show nthQuoteIdx ('"' :: cs) ((2 * (t - (f + 1))) + 1)
              = (nthQuoteIdx cs (2 * (t - (f + 1)))).map (fun p => p + 1)
              from by simp [nthQuoteIdx]]
          rw [hp]
          rfl
        · rw [show crAux ('"' :: cs) i f t true = crAux cs (i + 1) (f + 1) t false
              from by simp [crAux]]
          rw [hres]
          simp
          constructor
          · omega
          · omega
      · have hcount2 : cs.count '"' = 2 * (t - f) := by
          simp [hc] at hcount
          omega
        obtain ⟨p, hp, hres⟩ := (ih (i + 1) f t).2 hft hcount2
        refine ⟨p + 1, ?_, ?_⟩
        · rw [show nthQuoteIdx (c :: cs) (2 * (t - f) - 1)
              = (nthQuoteIdx cs (2 * (t - f) - 1)).map (fun p => p + 1)
              from by simp [nthQuoteIdx, hc]]
          rw [hp]
          rfl
        · rw [show crAux (c :: cs) i f t true = crAux cs (i + 1) f t true
              from by simp [crAux, hc]]
          rw [hres]
          simp
          constructor
          · omega
          · omega

/-- C10: when the line's `(colIndex + 1)`-th quoted field is opened by a
quote that is never closed (the line holds exactly `2*(colIndex+1)+1`
quotes), `getCellRange` still succeeds and returns the span from just after
that opening quote to the end of the line, while `extractQuotedFields`
yields only `colIndex + 1` fields — none for the unterminated quote. -/
theorem c10_unterminated_quote (l : Str) (colIndex : Nat)
    (h : l.count '"' = 2 * (colIndex + 1) + 1) :
    (∃ p, nthQuoteIdx l (2 * (colIndex + 1)) = some p
      ∧ getCellRange l colIndex = some (p + 1, l.length))
    ∧ (extractQuotedFields l).length = colIndex + 1 := by
  obtain ⟨p, hp, hres⟩ := (crAux_spec l 0 0 (colIndex + 1)).1 (Nat.zero_le _)
    (by simpa using h)
  refine ⟨⟨p, by simpa using hp, ?_⟩, ?_⟩
  · rw [show (0 : Nat) + p + 1 = p + 1 from by omega] at hres
    unfold getCellRange
    simpa using hres
  · rw [extractQuotedFields, (eqfAux_length l).1, h]
    omega

/-- Witness for C10: the line `"A","B` opens its second field (field index
1, column index 0) with a quote that is never closed. -/
theorem c10_unterminated_quote_witness :
    c10Line.count '"' = 2 * (0 + 1) + 1
    ∧ ((∃ p, nthQuoteIdx c10Line (2 * (0 + 1)) = some p
        ∧ getCellRange c10Line 0 = some (p + 1, c10Line.length))
      ∧ (extractQuotedFields c10Line).length = 0 + 1) :=
  ⟨by decide, c10_unterminated_quote c10Line 0 (by decide)⟩

end AGS
